import Mathlib

/-!
Verification development for the Daily Pathology Report generator
(`excel_processor.py`).  The pipeline is embedded shallowly: pandas
cells are `Option String` (with `none` playing the role of NaN),
pandas frames are lists of records, and the OpenAI oracle is an
`Option String` holding the raw text of a successful response
(`none` models "unavailable, unconfigured, empty batch skipped, or the
request raised and was caught").  Python string operations
(`str.upper`, `str.strip`, `in`, `str.split`) are modelled on
`List Char`.
-/

namespace DailyPathology

/-- Python's `needle in hay` on strings: contiguous-substring test. -/
def isSubstr (n : List Char) : List Char → Bool
  | [] => n.isEmpty
  | c :: t => n.isPrefixOf (c :: t) || isSubstr n t

/-- Python's `str.upper()` (ASCII, as used by the source's keyword data). -/
def upperCs (l : List Char) : List Char := l.map Char.toUpper

/-- Python's `str.strip()`: drop leading and trailing whitespace. -/
def stripCs (l : List Char) : List Char :=
  ((l.dropWhile Char.isWhitespace).reverse.dropWhile Char.isWhitespace).reverse

/-- Python's `str.split(sep)` for a one-character separator. -/
def splitOnChar (sep : Char) : List Char → List (List Char)
  | [] => [[]]
  | c :: t =>
    if c == sep then [] :: splitOnChar sep t
    else
      match splitOnChar sep t with
      | [] => [[c]]
      | h :: rest => (c :: h) :: rest

/-- Python `dict` read-back: the value of the LAST binding inserted for a key
(later assignments to the same key overwrite earlier ones). -/
def dictGet {α β : Type} [BEq α] (m : List (α × β)) (k : α) : Option β :=
  (m.reverse.find? (fun e => e.1 == k)).map (fun e => e.2)

/-- The static `CATEGORY_RULES` dict of the source, as an ordered association
list (Python 3.7+ dicts iterate in insertion order). -/
def CATEGORY_RULES : List (String × List String) :=
  [("Biochemistry",
    ["RENAL FUNCTION TEST", "LIVER FUNCTION TEST", "BLOOD GLUCOSE",
     "GLYCOSYLATED HB", "SGOT", "SGPT", "BLOOD UREA",
     "VIRAL MARKER", "PREOPERATIVE PROFILE", "SEROLOGY", "PT/INR"]),
   ("Clinical",
    ["URINE ANALYSIS", "PLEURAL FLUID EXAMINATION",
     "Plural Fluid for R/E Biochemistry / ADA"]),
   ("Hematology",
    ["COMPLETE BLOOD COUNTS [CBC]", "TOTAL LEUCOCYTE COUNT",
     "FLUID DLC", "COMPLETE HEMOGRAM WITH ESR", "BLOOD GROUP"]),
   ("Immunology",
    ["Hormone Assays Report", "Serum IGE", "VDRL TITER", "HBsAg",
     "HCV ANTIBODY TEST", "CA-125", "THYROID FUNCTION TEST",
     "THYROID STIMULATING HORMONE", "TOTAL THYROID PROFILE",
     "IgG IgM S Typhe", "C-REACTIVE PROTEIN"])]

/-- `CATEGORY_RULES.keys()`: the fixed, ordered category enumeration. -/
def categoryNames : List String := CATEGORY_RULES.map (fun p => p.1)

/-- `normalize_bookingmode` of the source: `"" if pd.isna(x) else
str(x).strip().upper()`, then substring checks.  Both the `"OPD"` branch and
the default return `"OPD Indent"`, exactly as in the source. -/
def normalize_bookingmode (x : Option String) : String :=
  let s : List Char :=
    match x with
    | none => []
    | some v => upperCs (stripCs v.toList)
  if isSubstr "IPD".toList s then "IPD"
  else if isSubstr "OPD".toList s then "OPD Indent"
  else "OPD Indent"

/-- One line of the oracle response, per the loop body of
`ai_batch_categorize`: split on `","`, strip each part, keep the line only
when it has exactly three parts and its third part is one of the fixed
category names. -/
def lineEntry (line : List Char) : Option ((String × String) × String) :=
  match (splitOnChar ',' line).map (fun p => String.mk (stripCs p)) with
  | [a, b, c] => if categoryNames.contains c then some ((a, b), c) else none
  | _ => none

/-- The mapping-building loop of `ai_batch_categorize` over the response
lines: a `dict` grown line by line, unparsable or out-of-set lines skipped. -/
def responseMapping (lines : List (List Char)) : List ((String × String) × String) :=
  lines.foldl
    (fun mapping line =>
      match (splitOnChar ',' line).map (fun p => String.mk (stripCs p)) with
      | [a, b, c] =>
        if categoryNames.contains c then mapping ++ [((a, b), c)] else mapping
      | _ => mapping)
    []

/-- `ai_batch_categorize` of the source.  `oracle = none` models every path
that yields the empty dict without parsing: `OPENAI_AVAILABLE` false, no API
key, or the `except Exception` branch; `oracle = some content` is the text of
a successful response, split into lines after stripping. -/
def ai_batch_categorize (tests : List (String × String)) (oracle : Option String) :
    List ((String × String) × String) :=
  if tests.isEmpty then []
  else
    match oracle with
    | none => []
    | some content => responseMapping (splitOnChar '\n' (stripCs content.toList))

/-- A cleaned record (a row of the frame after the upload handler's
`dropna`): the three required columns, as text. -/
structure Record where
  TestName : String
  BookingMode : String
  subgroup : String
deriving DecidableEq

/-- The search text of `build_category_counts`:
`f"{row['TestName']} {row['subgroup']}".upper()`. -/
def searchText (r : Record) : List Char :=
  upperCs (r.TestName ++ " " ++ r.subgroup).toList

/-- One iteration of the rule loop: does any keyword of the category occur
(`kw.upper() in text`) in the record's search text? -/
def catMatches (r : Record) (p : String × List String) : Bool :=
  p.2.any (fun kw => isSubstr (upperCs kw.toList) (searchText r))

/-- The keyword-rule classifier of `build_category_counts`: iterate
`CATEGORY_RULES` in order and return the first matching category
(the loop's `break`), or `none` when no category matches. -/
def ruleClassify (r : Record) : Option String :=
  (CATEGORY_RULES.find? (catMatches r)).map (fun p => p.1)

/-- The corrected-category expression of the source:
`cat or ai_mapping.get((TestName, subgroup), "Biochemistry")`. -/
def finalCategoryAssign (m : List ((String × String) × String)) (r : Record) : String :=
  match ruleClassify r with
  | some c => c
  | none => (dictGet m (r.TestName, r.subgroup)).getD "Biochemistry"

/-- A row of the `countsByTest` table (columns TestName, IPD, OPD, Total). -/
structure TestRow where
  TestName : String
  IPD : Nat
  OPD : Nat
  Total : Nat
deriving DecidableEq

/-- `build_test_counts` of the source: pivot on distinct test names
(sorted ascending, as `pivot_table` + `sort_values` produce), count records
per name with normalized booking mode `"IPD"` and `"OPD Indent"`, per-row
`Total = IPD + OPD`, and append a Grand Total row of column sums. -/
def build_test_counts (records : List Record) : List TestRow :=
  let norm : Record → String := fun r => normalize_bookingmode (some r.BookingMode)
  let names : List String :=
    List.insertionSort (fun a b => a ≤ b) (records.map (fun r => r.TestName)).dedup
  let result : List TestRow :=
    names.map (fun n =>
      let ipdC := (records.filter (fun r => r.TestName == n && norm r == "IPD")).length
      let opdC := (records.filter (fun r => r.TestName == n && norm r == "OPD Indent")).length
      ⟨n, ipdC, opdC, ipdC + opdC⟩)
  result ++
    [⟨"Grand Total",
      (result.map (fun row => row.IPD)).sum,
      (result.map (fun row => row.OPD)).sum,
      (result.map (fun row => row.Total)).sum⟩]

/-- `build_category_counts` of the source: rule-classify every row, collect
the unresolved `(TestName, subgroup)` pairs in row order, consult the oracle
once, fill each row's final category (`cat or ai_mapping.get(key,
"Biochemistry")`), then emit one count row per fixed category plus a Grand
Total row equal to `len(df)`.  The second component is the
`Final_Category` column. -/
def build_category_counts (records : List Record) (oracle : Option String) :
    List (String × Nat) × List String :=
  let unknown_tests : List (String × String) :=
    (records.filter (fun r => (ruleClassify r).isNone)).map
      (fun r => (r.TestName, r.subgroup))
  let ai_mapping := ai_batch_categorize unknown_tests oracle
  let corrected_cats : List String := records.map (finalCategoryAssign ai_mapping)
  let results : List (String × Nat) :=
    (CATEGORY_RULES.map
      (fun p => (p.1, (corrected_cats.filter (fun c => c == p.1)).length))) ++
    [("Grand Total", records.length)]
  (results, corrected_cats)

/-- A raw uploaded row, before `dropna`: each required column may be NaN. -/
structure RawRecord where
  TestName : Option String
  BookingMode : Option String
  subgroup : Option String
deriving DecidableEq

/-- The upload handler's
`df.dropna(subset=["TestName", "BookingMode", "subgroup"])`: keep exactly
the rows in which all three required cells are non-NaN. -/
def dropna (rows : List RawRecord) : List Record :=
  rows.filterMap (fun w =>
    match w.TestName, w.BookingMode, w.subgroup with
    | some t, some b, some s => some ⟨t, b, s⟩
    | _, _, _ => none)

/-- A field that the specification's drop rule calls "missing or empty":
either NaN or the empty string. -/
def fieldAbsent (f : Option String) : Bool :=
  match f with
  | none => true
  | some s => s.isEmpty

/-- A raw row with some required field missing or empty. -/
def hasMissingOrEmpty (w : RawRecord) : Bool :=
  fieldAbsent w.TestName || fieldAbsent w.BookingMode || fieldAbsent w.subgroup

/-- The `ai_mapping` value computed inside `build_category_counts`: the oracle
consulted once on the rule-unresolved `(TestName, subgroup)` pairs, in row
order. -/
def pipelineMapping (records : List Record) (oracle : Option String) :
    List ((String × String) × String) :=
  ai_batch_categorize
    ((records.filter (fun r => (ruleClassify r).isNone)).map
      (fun r => (r.TestName, r.subgroup)))
    oracle

/-! ## Helper lemmas -/

lemma step_eq_lineEntry (mapping : List ((String × String) × String)) (line : List Char) :
    (match (splitOnChar ',' line).map (fun p => String.mk (stripCs p)) with
      | [a, b, c] =>
        if categoryNames.contains c then mapping ++ [((a, b), c)] else mapping
      | _ => mapping) =
    (match lineEntry line with
      | some e => mapping ++ [e]
      | none => mapping) := by
  unfold lineEntry
  rcases (splitOnChar ',' line).map (fun p => String.mk (stripCs p)) with
    _ | ⟨a, _ | ⟨b, _ | ⟨c, _ | ⟨d, t⟩⟩⟩⟩ <;> simp <;> split <;> simp

lemma responseMapping_eq_filterMap (lines : List (List Char)) :
    responseMapping lines = lines.filterMap lineEntry := by
  have key : ∀ (ls : List (List Char)) (acc : List ((String × String) × String)),
      ls.foldl
        (fun mapping line =>
          match (splitOnChar ',' line).map (fun p => String.mk (stripCs p)) with
          | [a, b, c] =>
            if categoryNames.contains c then mapping ++ [((a, b), c)] else mapping
          | _ => mapping)
        acc = acc ++ ls.filterMap lineEntry := by
    intro ls
    induction ls with
    | nil => intro acc; simp
    | cons l ls ih =>
      intro acc
      rw [List.foldl_cons, step_eq_lineEntry, List.filterMap_cons]
      cases he : lineEntry l with
      | none => exact ih acc
      | some e =>
        have h2 := ih (acc ++ [e])
        rw [List.append_assoc] at h2
        exact h2
  exact key lines []

lemma lineEntry_val_mem {line : List Char} {e : (String × String) × String}
    (h : lineEntry line = some e) : e.2 ∈ categoryNames := by
  unfold lineEntry at h
  revert h
  rcases (splitOnChar ',' line).map (fun p => String.mk (stripCs p)) with
    _ | ⟨a, _ | ⟨b, _ | ⟨c, _ | ⟨d, t⟩⟩⟩⟩ <;> intro h <;> simp at h
  rcases h with ⟨hc, he⟩
  subst he
  simpa using hc

lemma responseMapping_val_mem {lines : List (List Char)} {e : (String × String) × String}
    (h : e ∈ responseMapping lines) : e.2 ∈ categoryNames := by
  rw [responseMapping_eq_filterMap] at h
  rcases List.mem_filterMap.mp h with ⟨line, _, hline⟩
  exact lineEntry_val_mem hline

lemma ai_batch_categorize_val_mem {tests : List (String × String)} {oracle : Option String}
    {e : (String × String) × String} (h : e ∈ ai_batch_categorize tests oracle) :
    e.2 ∈ categoryNames := by
  unfold ai_batch_categorize at h
  split at h
  · simp at h
  · rcases oracle with _ | content
    · simp at h
    · exact responseMapping_val_mem h

lemma dictGet_mem {α β : Type} [BEq α] {m : List (α × β)} {k : α} {v : β}
    (h : dictGet m k = some v) : ∃ e ∈ m, e.2 = v := by
  unfold dictGet at h
  rcases hf : (m.reverse.find? (fun e => e.1 == k)) with _ | e
  · rw [hf] at h; simp at h
  · rw [hf] at h
    simp only [Option.map_some'] at h
    exact ⟨e, List.mem_reverse.mp (List.mem_of_find?_eq_some hf), by simpa using h⟩

lemma ruleClassify_mem {r : Record} {c : String} (h : ruleClassify r = some c) :
    c ∈ categoryNames := by
  unfold ruleClassify at h
  rcases hf : CATEGORY_RULES.find? (catMatches r) with _ | p
  · rw [hf] at h; simp at h
  · rw [hf] at h
    simp only [Option.map_some'] at h
    have hp := List.mem_of_find?_eq_some hf
    have hpc : p.1 = c := by injection h
    subst hpc
    exact List.mem_map.mpr ⟨p, hp, rfl⟩

lemma finalCategoryAssign_mem_of_pipeline (records : List Record) (oracle : Option String)
    (r : Record) :
    finalCategoryAssign (pipelineMapping records oracle) r ∈ categoryNames := by
  unfold finalCategoryAssign
  rcases hc : ruleClassify r with _ | c
  · rcases hd : dictGet (pipelineMapping records oracle) (r.TestName, r.subgroup) with _ | v
    · simp only [Option.getD_none]
      decide
    · simp only [Option.getD_some]
      rcases dictGet_mem hd with ⟨e, he, hev⟩
      unfold pipelineMapping at he
      have h6 := ai_batch_categorize_val_mem he
      rwa [hev] at h6
  · exact ruleClassify_mem hc

/-! ## Claims -/

/-- C10: applied to the empty cleaned record set, `build_test_counts` still
returns exactly one Grand Total row with all three counts zero. -/
theorem build_test_counts_empty : build_test_counts [] = [⟨"Grand Total", 0, 0, 0⟩] := by
  rfl

/-- C9: both aggregation passes are deterministic — two runs on identical
cleaned records (and an identical oracle response for the category pass)
produce identical output tables. -/
theorem pipeline_deterministic (rs₁ rs₂ : List Record) (o₁ o₂ : Option String)
    (hr : rs₁ = rs₂) (ho : o₁ = o₂) :
    build_test_counts rs₁ = build_test_counts rs₂ ∧
    build_category_counts rs₁ o₁ = build_category_counts rs₂ o₂ := by
  subst hr; subst ho; exact ⟨rfl, rfl⟩

/-- Witness for C9 at a concrete input. -/
theorem pipeline_deterministic_witness :
    build_test_counts [⟨"SGOT", "IPD", "x"⟩] = build_test_counts [⟨"SGOT", "IPD", "x"⟩] ∧
    build_category_counts [⟨"SGOT", "IPD", "x"⟩] none =
      build_category_counts [⟨"SGOT", "IPD", "x"⟩] none :=
  pipeline_deterministic [⟨"SGOT", "IPD", "x"⟩] [⟨"SGOT", "IPD", "x"⟩] none none rfl rfl

/-- C6 counterexample: a raw row whose required `TestName` cell is present
but EMPTY is `hasMissingOrEmpty`, yet `dropna` retains it — the code drops
only NaN cells, so the claim "missing or empty is excluded" is false. -/
theorem dropna_keeps_empty_string :
    hasMissingOrEmpty ⟨some "", some "IPD", some "Routine"⟩ = true ∧
    dropna [⟨some "", some "IPD", some "Routine"⟩] = [⟨"", "IPD", "Routine"⟩] := by
  exact ⟨rfl, rfl⟩

/-- C6 (amended): `dropna` silently keeps exactly the raw rows whose three
required cells are all present (non-NaN), dropping the rest without error;
present-but-empty strings are retained. -/
theorem dropna_spec (rows : List RawRecord) :
    dropna rows =
      (rows.filter (fun w =>
        w.TestName.isSome && w.BookingMode.isSome && w.subgroup.isSome)).map
        (fun w => ⟨w.TestName.getD "", w.BookingMode.getD "", w.subgroup.getD ""⟩) := by
  induction rows with
  | nil => rfl
  | cons w rows ih =>
    rcases w with ⟨_ | t, _ | b, _ | s⟩ <;>
      simp [dropna, List.filterMap_cons, List.filter_cons] at ih ⊢ <;>
      exact ih

/-- C7: the fallback resolver returns the empty mapping whenever the oracle
is unavailable, unconfigured or failed (`oracle = none`), or the unresolved
batch is empty; it is a total function (never raises); within a successful
response each unparsable or out-of-set line is discarded individually while
the remaining lines are kept (`filterMap` over the per-line parse), and
every mapping value lies in the fixed category set. -/
theorem ai_batch_categorize_absorbs :
    (∀ tests : List (String × String), ai_batch_categorize tests none = []) ∧
    (∀ oracle, ai_batch_categorize [] oracle = []) ∧
    (∀ l₁ l₂ bad, lineEntry bad = none →
      responseMapping (l₁ ++ bad :: l₂) = responseMapping (l₁ ++ l₂)) ∧
    (∀ lines, responseMapping lines = lines.filterMap lineEntry) ∧
    (∀ lines e, e ∈ responseMapping lines → e.2 ∈ categoryNames) := by
  refine ⟨?_, ?_, ?_, ?_, ?_⟩
  · intro tests; cases tests <;> rfl
  · intro oracle; rfl
  · intro l₁ l₂ bad hbad
    rw [responseMapping_eq_filterMap, responseMapping_eq_filterMap,
      List.filterMap_append, List.filterMap_append, List.filterMap_cons, hbad]
  · exact responseMapping_eq_filterMap
  · intro lines e h; exact responseMapping_val_mem h

/-- Witness for C7: a concrete garbage line is dropped without affecting the
parsable line around it. -/
theorem ai_batch_categorize_absorbs_witness :
    responseMapping (["A,B,Hematology".toList] ++ "garbage".toList :: []) =
      responseMapping (["A,B,Hematology".toList] ++ []) :=
  ai_batch_categorize_absorbs.2.2.1 ["A,B,Hematology".toList] [] "garbage".toList
    (by decide)

/-- C1: classification is total and layered.  Every record of the cleaned set
gets exactly one category (the assignment is a function) drawn from the fixed
four-element set; a rule match is kept and never overwritten by the oracle
mapping; a record unmatched by rules and unmapped by the oracle gets
`"Biochemistry"`, the first-listed category — for every oracle response,
including none at all. -/
theorem classification_total (records : List Record) (oracle : Option String) (r : Record)
    (hr : r ∈ records) :
    finalCategoryAssign (pipelineMapping records oracle) r ∈ categoryNames ∧
    finalCategoryAssign (pipelineMapping records oracle) r ∈
      (build_category_counts records oracle).2 ∧
    (∀ c, ruleClassify r = some c → finalCategoryAssign (pipelineMapping records oracle) r = c) ∧
    (ruleClassify r = none →
      dictGet (pipelineMapping records oracle) (r.TestName, r.subgroup) = none →
      finalCategoryAssign (pipelineMapping records oracle) r = "Biochemistry") ∧
    categoryNames = ["Biochemistry", "Clinical", "Hematology", "Immunology"] ∧
    (build_category_counts records oracle).2 =
      records.map (finalCategoryAssign (pipelineMapping records oracle)) := by
  refine ⟨finalCategoryAssign_mem_of_pipeline records oracle r, ?_, ?_, ?_, rfl, rfl⟩
  · exact List.mem_map.mpr ⟨r, hr, rfl⟩
  · intro c hc
    unfold finalCategoryAssign
    rw [hc]
  · intro h1 h2
    unfold finalCategoryAssign
    rw [h1, h2]
    rfl

/-- Witness for C1: a record matched by no rule, with the oracle absent,
still receives a category from the fixed set. -/
theorem classification_total_witness :
    (⟨"mystery", "OPD", "z"⟩ : Record) ∈ ([⟨"mystery", "OPD", "z"⟩] : List Record) ∧
    finalCategoryAssign (pipelineMapping [⟨"mystery", "OPD", "z"⟩] none)
      ⟨"mystery", "OPD", "z"⟩ ∈ categoryNames :=
  ⟨List.mem_singleton.mpr rfl,
    (classification_total [⟨"mystery", "OPD", "z"⟩] none ⟨"mystery", "OPD", "z"⟩
      (List.mem_singleton.mpr rfl)).1⟩

lemma find?_eq_of_first {α : Type} (p : α → Bool) :
    ∀ (l : List α) (i : Nat) (hi : i < l.length),
      p (l.get ⟨i, hi⟩) = true →
      (∀ j (hj : j < i), p (l.get ⟨j, Nat.lt_trans hj hi⟩) = false) →
      l.find? p = some (l.get ⟨i, hi⟩)
  | [], i, hi, _, _ => absurd hi (by simp)
  | a :: t, 0, _, hm, _ => List.find?_cons_of_pos t hm
  | a :: t, i + 1, hi, hm, hprev => by
    have ha : p a = false := hprev 0 (Nat.succ_pos i)
    rw [List.find?_cons_of_neg t (by simp [ha])]
    exact find?_eq_of_first p t i (Nat.lt_of_succ_lt_succ hi) hm
      (fun j hj => hprev (j + 1) (Nat.succ_lt_succ hj))

/-- C4: keyword precedence.  The classifier builds the case-insensitive
search text from `TestName` and `subgroup`, walks the fixed enumeration in
order, and returns the first category one of whose (upper-cased) keywords is
a substring of the text; so a record matching keywords of two categories gets
the earlier one — any earlier category matching none of its keywords is
skipped. -/
theorem rule_first_match (r : Record) (i : Nat) (hi : i < CATEGORY_RULES.length)
    (hmatch : catMatches r (CATEGORY_RULES.get ⟨i, hi⟩) = true)
    (hprev : ∀ j (hj : j < i),
      catMatches r (CATEGORY_RULES.get ⟨j, Nat.lt_trans hj hi⟩) = false) :
    ruleClassify r = some (CATEGORY_RULES.get ⟨i, hi⟩).1 := by
  unfold ruleClassify
  rw [find?_eq_of_first (catMatches r) CATEGORY_RULES i hi hmatch hprev]
  rfl

/-- Witness for C4: a record whose text holds both a Hematology keyword
(`"BLOOD GROUP"`) and an Immunology keyword (`"THYROID FUNCTION TEST"`) is
assigned Hematology, the earlier of the two. -/
theorem rule_first_match_witness :
    catMatches ⟨"THYROID FUNCTION TEST", "IPD", "BLOOD GROUP"⟩
        (CATEGORY_RULES.get ⟨3, by decide⟩) = true ∧
    ruleClassify ⟨"THYROID FUNCTION TEST", "IPD", "BLOOD GROUP"⟩ = some "Hematology" :=
  ⟨by decide,
    (rule_first_match ⟨"THYROID FUNCTION TEST", "IPD", "BLOOD GROUP"⟩ 2 (by decide)
      (by decide) (by decide)).trans rfl⟩

lemma toUpper_of_ws {c : Char} (h : c.isWhitespace = true) : c.toUpper = c := by
  have h4 : ((c = ' ' ∨ c = '\t') ∨ c = '\r') ∨ c = '\n' := by
    simpa [Char.isWhitespace, Bool.or_eq_true, decide_eq_true_eq] using h
  rcases h4 with ((h4 | h4) | h4) | h4 <;> subst h4 <;> decide

lemma isSubstr_upper_dropWhile (c0 : Char) (t0 : List Char) (h0 : c0.isWhitespace = false) :
    ∀ l : List Char,
      isSubstr (c0 :: t0) (upperCs (l.dropWhile Char.isWhitespace)) =
      isSubstr (c0 :: t0) (upperCs l)
  | [] => rfl
  | c :: l => by
    rw [List.dropWhile_cons]
    by_cases hw : c.isWhitespace
    · rw [if_pos hw, isSubstr_upper_dropWhile c0 t0 h0 l]
      have hcU : Char.toUpper c = c := toUpper_of_ws hw
      have hne : (c0 == c) = false := by
        refine beq_eq_false_iff_ne.mpr ?_
        intro he
        rw [← he, h0] at hw
        exact Bool.false_ne_true hw
      show isSubstr (c0 :: t0) (upperCs l) = isSubstr (c0 :: t0) (upperCs (c :: l))
      unfold upperCs
      rw [List.map_cons, hcU]
      simp [isSubstr, List.isPrefixOf, hne]
    · rw [if_neg hw]

lemma isPrefixOf_exists : ∀ (n l : List Char), n.isPrefixOf l = true ↔ ∃ t, n ++ t = l
  | [], l => by simp [List.isPrefixOf]
  | a :: n, [] => by simp [List.isPrefixOf]
  | a :: n, b :: l => by
    simp only [List.isPrefixOf, Bool.and_eq_true, beq_iff_eq]
    constructor
    · rintro ⟨rfl, h⟩
      rcases (isPrefixOf_exists n l).mp h with ⟨t, rfl⟩
      exact ⟨t, rfl⟩
    · rintro ⟨t, ht⟩
      injection ht with h1 h2
      subst h1
      exact ⟨rfl, (isPrefixOf_exists n l).mpr ⟨t, h2⟩⟩

lemma isSubstr_exists : ∀ (n l : List Char), isSubstr n l = true ↔ ∃ s t, s ++ n ++ t = l
  | n, [] => by
    cases n <;> simp [isSubstr, List.append_eq_nil]
  | n, c :: l => by
    simp only [isSubstr, Bool.or_eq_true, isPrefixOf_exists, isSubstr_exists n l]
    constructor
    · rintro (⟨t, ht⟩ | ⟨s, t, hst⟩)
      · exact ⟨[], t, by simpa using ht⟩
      · exact ⟨c :: s, t, by simp [hst]⟩
    · rintro ⟨s, t, hst⟩
      cases s with
      | nil => exact Or.inl ⟨t, by simpa using hst⟩
      | cons a s =>
        injection hst with h1 h2
        subst h1
        exact Or.inr ⟨s, t, h2⟩

lemma isSubstr_reverse (n l : List Char) :
    isSubstr n.reverse l.reverse = isSubstr n l := by
  have h1 : isSubstr n.reverse l.reverse = true ↔ isSubstr n l = true := by
    rw [isSubstr_exists, isSubstr_exists]
    constructor
    · rintro ⟨s, t, h⟩
      refine ⟨t.reverse, s.reverse, ?_⟩
      have h2 := congrArg List.reverse h
      simpa [List.reverse_append, List.append_assoc] using h2
    · rintro ⟨s, t, h⟩
      refine ⟨t.reverse, s.reverse, ?_⟩
      have h2 := congrArg List.reverse h
      simpa [List.reverse_append, List.append_assoc] using h2
  cases hb : isSubstr n l with
  | true => exact h1.mpr hb
  | false =>
    cases hb2 : isSubstr n.reverse l.reverse with
    | false => rfl
    | true =>
      have h3 := h1.mp hb2
      rw [hb] at h3
      exact absurd h3 Bool.false_ne_true

lemma ipd_substr_strip (l : List Char) :
    isSubstr "IPD".toList (upperCs (stripCs l)) = isSubstr "IPD".toList (upperCs l) := by
  have e5 : "IPD".toList = ['I', 'P', 'D'] := rfl
  rw [e5]
  unfold stripCs
  have step2 : ∀ m : List Char,
      isSubstr ['I', 'P', 'D']
        (upperCs ((m.reverse.dropWhile Char.isWhitespace).reverse)) =
      isSubstr ['I', 'P', 'D'] (upperCs m) := by
    intro m
    have e1 : upperCs ((m.reverse.dropWhile Char.isWhitespace).reverse) =
        (upperCs (m.reverse.dropWhile Char.isWhitespace)).reverse := by
      unfold upperCs
      rw [List.map_reverse]
    rw [e1]
    have e2 : isSubstr ['I', 'P', 'D']
        ((upperCs (m.reverse.dropWhile Char.isWhitespace)).reverse) =
        isSubstr (['D', 'P', 'I'].reverse)
          ((upperCs (m.reverse.dropWhile Char.isWhitespace)).reverse) := rfl
    rw [e2, isSubstr_reverse,
      isSubstr_upper_dropWhile 'D' ['P', 'I'] (by decide) m.reverse]
    have e4 : upperCs m.reverse = (upperCs m).reverse := by
      unfold upperCs
      rw [List.map_reverse]
    rw [e4]
    have e6 : isSubstr ['D', 'P', 'I'] ((upperCs m).reverse) =
        isSubstr (['I', 'P', 'D'].reverse) ((upperCs m).reverse) := rfl
    rw [e6, isSubstr_reverse]
  rw [step2 (l.dropWhile Char.isWhitespace),
    isSubstr_upper_dropWhile 'I' ['P', 'D'] (by decide) l]

/-- C5: admission tagging is binary.  A record whose `admissionMode` contains
`"IPD"` case-insensitively (i.e. after upper-casing) is tagged `"IPD"`
(Inpatient); every other value — empty, missing (NaN), or unrecognized — is
tagged `"OPD Indent"` (OutpatientIndent); no third tag exists. -/
theorem normalize_bookingmode_spec (x : Option String) :
    (normalize_bookingmode x = "IPD" ∨ normalize_bookingmode x = "OPD Indent") ∧
    (normalize_bookingmode x = "IPD" ↔
      isSubstr "IPD".toList (upperCs (x.getD "").toList) = true) := by
  constructor
  · rcases x with _ | v
    · exact Or.inr rfl
    · unfold normalize_bookingmode
      dsimp only
      split
      · exact Or.inl rfl
      · split
        · exact Or.inr rfl
        · exact Or.inr rfl
  · rcases x with _ | v
    · decide
    · have hs := ipd_substr_strip v.toList
      unfold normalize_bookingmode
      dsimp only [Option.getD_some]
      rw [hs]
      cases h : isSubstr "IPD".toList (upperCs v.toList) with
      | true => simp [h]
      | false =>
        rw [if_neg (by simp [h])]
        split <;> simp

/-- The normalized booking mode of a cleaned record (the
`BookingMode_norm` column of `build_test_counts`). -/
def normOf (r : Record) : String := normalize_bookingmode (some r.BookingMode)

/-- The pivot index of `build_test_counts`: distinct test names, ascending. -/
def sortedNames (records : List Record) : List String :=
  List.insertionSort (fun a b => a ≤ b) (records.map (fun r => r.TestName)).dedup

/-- One body row of the `countsByTest` table, for one distinct test name. -/
def rowOf (records : List Record) (n : String) : TestRow :=
  ⟨n,
    (records.filter (fun r => r.TestName == n && normOf r == "IPD")).length,
    (records.filter (fun r => r.TestName == n && normOf r == "OPD Indent")).length,
    (records.filter (fun r => r.TestName == n && normOf r == "IPD")).length +
      (records.filter (fun r => r.TestName == n && normOf r == "OPD Indent")).length⟩

/-- The body (pre-Grand-Total rows) of the `countsByTest` table. -/
def bodyOf (records : List Record) : List TestRow :=
  (sortedNames records).map (rowOf records)

/-- The Grand Total row of the `countsByTest` table: column-wise sums. -/
def grandRow (records : List Record) : TestRow :=
  ⟨"Grand Total",
    ((bodyOf records).map (fun row => row.IPD)).sum,
    ((bodyOf records).map (fun row => row.OPD)).sum,
    ((bodyOf records).map (fun row => row.Total)).sum⟩

lemma build_test_counts_eq (records : List Record) :
    build_test_counts records = bodyOf records ++ [grandRow records] := rfl

lemma normalize_binary (x : Option String) :
    normalize_bookingmode x = "IPD" ∨ normalize_bookingmode x = "OPD Indent" := by
  unfold normalize_bookingmode
  rcases x with _ | v
  · exact Or.inr rfl
  · dsimp only
    split
    · exact Or.inl rfl
    · split
      · exact Or.inr rfl
      · exact Or.inr rfl

lemma length_filter_and_split (records : List Record) (n : String) :
    (records.filter (fun r => r.TestName == n && normOf r == "IPD")).length +
      (records.filter (fun r => r.TestName == n && normOf r == "OPD Indent")).length =
    (records.filter (fun r => r.TestName == n)).length := by
  induction records with
  | nil => rfl
  | cons r rs ih =>
    have hb : normOf r = "IPD" ∨ normOf r = "OPD Indent" :=
      normalize_binary (some r.BookingMode)
    rcases hb with h | h <;>
      cases hn : (r.TestName == n) <;>
      simp [h, hn, List.filter_cons,
        show (("IPD" : String) == "OPD Indent") = false from by decide,
        show (("OPD Indent" : String) == "IPD") = false from by decide] <;>
      omega

lemma sum_map_add (f g : String → Nat) :
    ∀ keys : List String,
      (keys.map (fun k => f k + g k)).sum = (keys.map f).sum + (keys.map g).sum
  | [] => rfl
  | k :: keys => by
    rw [List.map_cons, List.map_cons, List.map_cons, List.sum_cons, List.sum_cons,
      List.sum_cons, sum_map_add f g keys]
    omega

lemma sum_indicator_one {x : String} :
    ∀ keys : List String, keys.Nodup → x ∈ keys →
      (keys.map (fun k => if x == k then 1 else 0)).sum = 1
  | [], _, hx => absurd hx (by simp)
  | k :: keys, hnd, hx => by
    rw [List.map_cons, List.sum_cons]
    rcases List.mem_cons.mp hx with rfl | hx'
    · have hnot : x ∉ keys := (List.nodup_cons.mp hnd).1
      have hz : (keys.map (fun k' => if x == k' then 1 else 0)).sum = 0 := by
        apply List.sum_eq_zero
        intro m hm
        rcases List.mem_map.mp hm with ⟨k', hk', rfl⟩
        rw [if_neg]
        intro hb
        exact hnot (beq_iff_eq.mp hb ▸ hk')
      rw [if_pos (beq_self_eq_true x), hz]
    · have hne : (x == k) = false := by
        refine beq_eq_false_iff_ne.mpr ?_
        rintro rfl
        exact (List.nodup_cons.mp hnd).1 hx'
      rw [if_neg (by simp [hne]),
        sum_indicator_one keys (List.nodup_cons.mp hnd).2 hx']

lemma sum_filter_length_cover (keys : List String) (hnd : keys.Nodup) :
    ∀ xs : List String, (∀ x ∈ xs, x ∈ keys) →
      (keys.map (fun k => (xs.filter (fun x => x == k)).length)).sum = xs.length
  | [], _ => by simp
  | x :: xs, hcov => by
    have hx : x ∈ keys := hcov x (List.mem_cons_self x xs)
    have ih := sum_filter_length_cover keys hnd xs
      (fun y hy => hcov y (List.mem_cons_of_mem x hy))
    have hsplit : ∀ k, ((x :: xs).filter (fun y => y == k)).length =
        (if x == k then 1 else 0) + (xs.filter (fun y => y == k)).length := by
      intro k
      rw [List.filter_cons]
      by_cases h : (x == k) = true
      · simp [h]
        omega
      · simp [h]
    rw [show (fun k => ((x :: xs).filter (fun y => y == k)).length) =
        fun k => (if x == k then 1 else 0) + (xs.filter (fun y => y == k)).length from
        funext hsplit,
      sum_map_add, sum_indicator_one keys hnd hx, ih]
    simp [Nat.add_comm]

lemma filter_name_eq_map (records : List Record) (n : String) :
    (records.filter (fun r => r.TestName == n)).length =
    ((records.map (fun r => r.TestName)).filter (fun x => x == n)).length := by
  rw [List.filter_map, List.length_map]
  rfl

lemma sum_body_total (records : List Record) :
    ((bodyOf records).map (fun row => row.Total)).sum = records.length := by
  unfold bodyOf
  rw [List.map_map]
  rw [show ((fun row => row.Total) ∘ rowOf records) =
      fun n => (records.filter (fun r => r.TestName == n)).length from
      funext fun n => length_filter_and_split records n]
  have hperm : List.Perm
      ((sortedNames records).map
        (fun n => (records.filter (fun r => r.TestName == n)).length))
      (((records.map (fun r => r.TestName)).dedup).map
        (fun n => (records.filter (fun r => r.TestName == n)).length)) :=
    (List.perm_insertionSort _ _).map _
  rw [hperm.sum_eq]
  rw [show (fun n => (records.filter (fun r => r.TestName == n)).length) =
      fun n => ((records.map (fun r => r.TestName)).filter (fun x => x == n)).length from
      funext (filter_name_eq_map records)]
  exact (sum_filter_length_cover _ (List.nodup_dedup _) _
    (fun x hx => List.mem_dedup.mpr hx)).trans (List.length_map _ _)

/-- C2: in `countsByTest`, the Grand Total row's IPD, OPD and Total are the
column-wise sums over the body rows, its Total equals the number of cleaned
records, and every body row satisfies `Total = IPD + OPD`. -/
theorem test_counts_totals (records : List Record) :
    ∃ body gt, build_test_counts records = body ++ [gt] ∧
      gt.TestName = "Grand Total" ∧
      gt.IPD = (body.map (fun row => row.IPD)).sum ∧
      gt.OPD = (body.map (fun row => row.OPD)).sum ∧
      gt.Total = (body.map (fun row => row.Total)).sum ∧
      gt.Total = records.length ∧
      ∀ row ∈ body, row.Total = row.IPD + row.OPD := by
  refine ⟨bodyOf records, grandRow records, build_test_counts_eq records, rfl, rfl, rfl, rfl,
    sum_body_total records, ?_⟩
  intro row hrow
  rcases List.mem_map.mp hrow with ⟨n, _, rfl⟩
  rfl

/-- Witness for C2, at the specification's worked example. -/
theorem test_counts_totals_witness :
    ∃ body gt,
      build_test_counts [⟨"CBC", "IPD", "R"⟩, ⟨"CBC", "OPD", "R"⟩, ⟨"Serum IGE", "IPD", "A"⟩] =
        body ++ [gt] ∧
      gt.TestName = "Grand Total" ∧
      gt.IPD = (body.map (fun row => row.IPD)).sum ∧
      gt.OPD = (body.map (fun row => row.OPD)).sum ∧
      gt.Total = (body.map (fun row => row.Total)).sum ∧
      gt.Total = ([⟨"CBC", "IPD", "R"⟩, ⟨"CBC", "OPD", "R"⟩,
        (⟨"Serum IGE", "IPD", "A"⟩ : Record)] : List Record).length ∧
      ∀ row ∈ body, row.Total = row.IPD + row.OPD :=
  test_counts_totals [⟨"CBC", "IPD", "R"⟩, ⟨"CBC", "OPD", "R"⟩, ⟨"Serum IGE", "IPD", "A"⟩]

/-- C3: the Grand Total of `countsByCategory` equals the number of cleaned
records and equals the sum of the four fixed per-category counts. -/
theorem category_counts_totals (records : List Record) (oracle : Option String) :
    ∃ n₁ n₂ n₃ n₄,
      (build_category_counts records oracle).1 =
        [("Biochemistry", n₁), ("Clinical", n₂), ("Hematology", n₃), ("Immunology", n₄),
          ("Grand Total", records.length)] ∧
      n₁ + n₂ + n₃ + n₄ = records.length := by
  refine ⟨_, _, _, _, rfl, ?_⟩
  have hnd : categoryNames.Nodup := by decide
  have hcov : ∀ x ∈ records.map (finalCategoryAssign (pipelineMapping records oracle)),
      x ∈ categoryNames := by
    intro x hx
    rcases List.mem_map.mp hx with ⟨r, _, rfl⟩
    exact finalCategoryAssign_mem_of_pipeline records oracle r
  have h := sum_filter_length_cover categoryNames hnd
    (records.map (finalCategoryAssign (pipelineMapping records oracle))) hcov
  rw [List.length_map] at h
  simp only [pipelineMapping] at h
  simp only [categoryNames, CATEGORY_RULES, List.map_cons, List.map_nil,
    List.sum_cons, List.sum_nil] at h
  dsimp only
  omega

/-- Witness for C3 at a concrete input. -/
theorem category_counts_totals_witness :
    ∃ n₁ n₂ n₃ n₄,
      (build_category_counts [⟨"SGOT", "IPD", "x"⟩, ⟨"unknown test", "OPD", "y"⟩] none).1 =
        [("Biochemistry", n₁), ("Clinical", n₂), ("Hematology", n₃), ("Immunology", n₄),
          ("Grand Total",
            ([⟨"SGOT", "IPD", "x"⟩, (⟨"unknown test", "OPD", "y"⟩ : Record)] :
              List Record).length)] ∧
      n₁ + n₂ + n₃ + n₄ =
        ([⟨"SGOT", "IPD", "x"⟩, (⟨"unknown test", "OPD", "y"⟩ : Record)] :
          List Record).length :=
  category_counts_totals [⟨"SGOT", "IPD", "x"⟩, ⟨"unknown test", "OPD", "y"⟩] none

/-- C8: output ordering.  The `countsByTest` body has one row per distinct
test name, sorted ascending by Lean's lexicographic string order, with the
single Grand Total row last; `countsByCategory` lists the categories in the
fixed enumeration order with Grand Total last. -/
theorem output_ordering (records : List Record) (oracle : Option String) :
    ∃ body gt,
      build_test_counts records = body ++ [gt] ∧
      gt.TestName = "Grand Total" ∧
      List.Sorted (fun a b => a ≤ b) (body.map (fun row => row.TestName)) ∧
      (body.map (fun row => row.TestName)).Nodup ∧
      (∀ n, n ∈ body.map (fun row => row.TestName) ↔
        n ∈ records.map (fun r => r.TestName)) ∧
      ((build_category_counts records oracle).1).map (fun p => p.1) =
        ["Biochemistry", "Clinical", "Hematology", "Immunology", "Grand Total"] := by
  have hnames : (bodyOf records).map (fun row => row.TestName) = sortedNames records := by
    unfold bodyOf
    rw [List.map_map,
      show ((fun row => row.TestName) ∘ rowOf records) = id from funext fun n => rfl,
      List.map_id]
  refine ⟨bodyOf records, grandRow records, build_test_counts_eq records, rfl, ?_, ?_, ?_, rfl⟩
  · rw [hnames]
    exact List.sorted_insertionSort _ _
  · rw [hnames]
    exact ((List.perm_insertionSort _ _).nodup_iff).mpr (List.nodup_dedup _)
  · intro n
    rw [hnames]
    unfold sortedNames
    rw [List.mem_insertionSort, List.mem_dedup]

/-- Witness for C8 at a concrete input. -/
theorem output_ordering_witness :
    ∃ body gt,
      build_test_counts [⟨"B test", "IPD", "x"⟩, ⟨"A test", "OPD", "y"⟩] = body ++ [gt] ∧
      gt.TestName = "Grand Total" ∧
      List.Sorted (fun a b => a ≤ b) (body.map (fun row => row.TestName)) ∧
      (body.map (fun row => row.TestName)).Nodup ∧
      (∀ n, n ∈ body.map (fun row => row.TestName) ↔
        n ∈ ([⟨"B test", "IPD", "x"⟩, (⟨"A test", "OPD", "y"⟩ : Record)] :
          List Record).map (fun r => r.TestName)) ∧
      ((build_category_counts [⟨"B test", "IPD", "x"⟩, ⟨"A test", "OPD", "y"⟩] none).1).map
          (fun p => p.1) =
        ["Biochemistry", "Clinical", "Hematology", "Immunology", "Grand Total"] :=
  output_ordering [⟨"B test", "IPD", "x"⟩, ⟨"A test", "OPD", "y"⟩] none

end DailyPathology
